import Mathlib

/-!
# Verification of the stack-queue repository's bounded containers

Shallow embedding of the `Stack` and `Queue` classes of `src/js/main.js`
and the input-handling paths of the `StackDemo` (`src/unnamed/part_000`)
and `QueueDemo` (`src/js/components/QueueDemo.js`) controllers.

Design choices of the embedding:
* JS arrays of display values become `List String` (values are opaque
  display strings; array end = stack top = queue rear).
* A JS `throw` becomes `Except ContainerError`; an operation that returns
  an error yields no new state, which models "the container is untouched".
* `Stack.push` receives an `Option String` so that the JS distinction
  between an absent value (`undefined`/`null`, here `none`) and the empty
  string (`some ""`) is preserved.
* `Queue.dequeue` never throws in the source; it is embedded as a total
  function returning `Option String × Queue` where `none` is the JS
  `null` sentinel.
-/

/-- Error taxonomy of the thrown `Error`s in `src/js/main.js`. -/
inductive ContainerError where
  | overflow
  | underflow
  | invalidValue
  | invalidCapacity
deriving DecidableEq, Repr

/-! ## Stack (`src/js/main.js` lines 710-900) -/

/-- `class Stack`: backing array plus `maxSize`. -/
structure Stack where
  items : List String
  maxSize : Nat
deriving DecidableEq, Repr

namespace Stack

/-- `constructor()`: empty items, `maxSize = 10`. -/
def new : Stack := { items := [], maxSize := 10 }

/-- `size()`: `this.items.length`. -/
def size (s : Stack) : Nat := s.items.length

/-- `isEmpty()`: `this.items.length === 0`. -/
def isEmpty (s : Stack) : Bool := s.items.length == 0

/-- `isFull()`: `this.items.length >= this.maxSize`. -/
def isFull (s : Stack) : Bool := s.items.length ≥ s.maxSize

/-- `push(element)`: overflow check first, then the
`undefined || null || ''` validity check, then `this.items.push(element)`
(append at the array end). -/
def push (s : Stack) (element : Option String) : Except ContainerError Stack :=
  if s.items.length ≥ s.maxSize then
    .error .overflow
  else
    match element with
    | none => .error .invalidValue
    | some v =>
      if v = "" then .error .invalidValue
      else .ok { s with items := s.items ++ [v] }

/-- `pop()`: throws underflow when empty, otherwise `this.items.pop()`
removes and returns the last array element. -/
def pop (s : Stack) : Except ContainerError (String × Stack) :=
  match s.items.getLast? with
  | none => .error .underflow
  | some v => .ok (v, { s with items := s.items.dropLast })

/-- `peek()`: `null` when empty, otherwise `this.items[this.items.length - 1]`. -/
def peek (s : Stack) : Option String :=
  if s.items.length == 0 then none
  else s.items.get? (s.items.length - 1)

/-- `clear()`: `this.items = []`. -/
def clear (s : Stack) : Stack := { s with items := [] }

/-- `setMaxSize(size)`: throws when `size < 1`, otherwise sets `maxSize`
and, when the stack exceeds the new bound, trims to
`this.items.slice(-size)` (the most recent `size` elements). The request
is an `Int` because the JS caller may pass any number, including a
negative one. -/
def setMaxSize (s : Stack) (reqSize : Int) : Except ContainerError Stack :=
  if reqSize < 1 then
    .error .invalidCapacity
  else
    let n := reqSize.toNat
    if s.items.length > n then
      .ok { items := s.items.drop (s.items.length - n), maxSize := n }
    else
      .ok { items := s.items, maxSize := n }

end Stack

/-! ## Queue (`src/js/main.js` lines 585-700) -/

/-- `class Queue`: backing array plus `maxSize`. -/
structure Queue where
  items : List String
  maxSize : Nat
deriving DecidableEq, Repr

namespace Queue

/-- `constructor()`: empty items, `maxSize = 50`. -/
def new : Queue := { items := [], maxSize := 50 }

/-- `size()`: `this.items.length`. -/
def size (q : Queue) : Nat := q.items.length

/-- `isEmpty()`: `this.items.length === 0`. -/
def isEmpty (q : Queue) : Bool := q.items.length == 0

/-- `enqueue(item)`: throws overflow when `size() >= maxSize`, otherwise
`this.items.push(item)` appends at the rear (array end). No validity
check on the item. -/
def enqueue (q : Queue) (item : String) : Except ContainerError Queue :=
  if q.items.length ≥ q.maxSize then .error .overflow
  else .ok { q with items := q.items ++ [item] }

/-- `dequeue()`: returns `null` when empty (no throw), otherwise
`this.items.shift()` removes and returns the first array element. -/
def dequeue (q : Queue) : Option String × Queue :=
  match q.items with
  | [] => (none, q)
  | v :: rest => (some v, { q with items := rest })

/-- `front()`: `null` when empty, otherwise `this.items[0]`. -/
def front (q : Queue) : Option String :=
  if q.items.length == 0 then none
  else q.items.get? 0

/-- `rear()`: `null` when empty, otherwise `this.items[this.items.length - 1]`. -/
def rear (q : Queue) : Option String :=
  if q.items.length == 0 then none
  else q.items.get? (q.items.length - 1)

/-- `clear()`: `this.items = []`. -/
def clear (q : Queue) : Queue := { q with items := [] }

end Queue

/-! ## Iteration harnesses

The LIFO/FIFO laws quantify over a whole sequence of operations, so we
iterate the single-step source operations. `popSeq`/`dequeueSeq` run on
fuel equal to the current occupancy: exactly the number of successive
calls the laws speak about. -/

/-- Run `push` on each value of a list in order, propagating the first
thrown error. -/
def pushSeq (s : Stack) : List (Option String) → Except ContainerError Stack
  | [] => .ok s
  | v :: vs => do pushSeq (← s.push v) vs

/-- The values returned by `n` successive `pop()` calls (stopping early
at an underflow). -/
def popSeq (n : Nat) (s : Stack) : List String :=
  match n with
  | 0 => []
  | n + 1 =>
    match s.pop with
    | .error _ => []
    | .ok (v, rest) => v :: popSeq n rest

/-- Run `enqueue` on each value of a list in order, propagating the first
thrown error. -/
def enqueueSeq (q : Queue) : List String → Except ContainerError Queue
  | [] => .ok q
  | v :: vs => do enqueueSeq (← q.enqueue v) vs

/-- The values returned by `n` successive `dequeue()` calls (an empty
queue returns the `null` sentinel, which contributes nothing). -/
def dequeueSeq (n : Nat) (q : Queue) : List String :=
  match n with
  | 0 => []
  | n + 1 =>
    match q.dequeue with
    | (none, _) => []
    | (some v, rest) => v :: dequeueSeq n rest

/-! ## Public-operation step relation (for the reachability invariant)

A failed operation throws in JS; the caller's container is left exactly
as it was, so a failing step keeps the state. -/

/-- One public Stack command. -/
inductive StackOp where
  | push (v : Option String)
  | pop
  | peek
  | clear
  | setMaxSize (n : Int)
deriving Repr

/-- Apply one public Stack command; a thrown error leaves the state
unchanged. `peek` reads but never writes. -/
def stackStep (s : Stack) : StackOp → Stack
  | .push v => match s.push v with | .ok t => t | .error _ => s
  | .pop => match s.pop with | .ok (_, t) => t | .error _ => s
  | .peek => s
  | .clear => s.clear
  | .setMaxSize n => match s.setMaxSize n with | .ok t => t | .error _ => s

/-- Apply a list of public Stack commands in order. -/
def stackRun (s : Stack) (ops : List StackOp) : Stack := ops.foldl stackStep s

/-- One public Queue command. -/
inductive QueueOp where
  | enqueue (v : String)
  | dequeue
  | front
  | rear
  | clear
deriving Repr

/-- Apply one public Queue command; a thrown error leaves the state
unchanged, and the peeks read but never write. -/
def queueStep (q : Queue) : QueueOp → Queue
  | .enqueue v => match q.enqueue v with | .ok t => t | .error _ => q
  | .dequeue => (q.dequeue).2
  | .front => q
  | .rear => q
  | .clear => q.clear

/-- Apply a list of public Queue commands in order. -/
def queueRun (q : Queue) (ops : List QueueOp) : Queue := ops.foldl queueStep q

/-- The capacity invariant of §3 of the design: `0 ≤ len(items) ≤ capacity`
(the lower bound is inherent to `Nat`). -/
def stackInv (s : Stack) : Prop := s.items.length ≤ s.maxSize

/-- The capacity invariant for the queue. -/
def queueInv (q : Queue) : Prop := q.items.length ≤ q.maxSize

instance (s : Stack) : Decidable (stackInv s) := by unfold stackInv; infer_instance

instance (q : Queue) : Decidable (queueInv q) := by unfold queueInv; infer_instance

/-! ## Controllers

`StackDemo.push` (`src/unnamed/part_000`, lines 112-139) and the
`QueueDemo` enqueue-button handler (`src/js/components/QueueDemo.js`,
lines 49-57 and 75-93). Only the container state and the emitted
feedback are modelled; DOM rendering is presentation glue outside the
core. -/

/-- JS `String.prototype.trim()`: strips leading and trailing whitespace
(modelled over the character list so it is kernel-computable; the ASCII
whitespace set is shared by JS and Lean). -/
def jsTrim (s : String) : String :=
  ⟨((s.data.dropWhile Char.isWhitespace).reverse.dropWhile Char.isWhitespace).reverse⟩

/-- Feedback emitted by `StackDemo.push` via `notify`. -/
inductive StackFeedback where
  | validationError (msg : String)
  | pushed (v : String)
  | overflowed
deriving DecidableEq, Repr

/-- `StackDemo.push()`: trims the raw input, rejects a blank value, then
rejects a value longer than 15 characters, and only then calls
`Stack.push`; any thrown error is reported as overflow feedback. -/
def stackDemoPush (st : Stack) (raw : String) : Stack × StackFeedback :=
  let value := jsTrim raw
  if value = "" then
    (st, .validationError "Please enter a value")
  else if value.length > 15 then
    (st, .validationError "Value too long (max 15 characters)")
  else
    match st.push (some value) with
    | .ok st2 => (st2, .pushed value)
    | .error _ => (st, .overflowed)

/-- Feedback emitted by the `QueueDemo` enqueue path via
`showNotification` (tagged with the notification type used in the
source). -/
inductive QueueFeedback where
  | warning (msg : String)
  | success (msg : String)
  | errorMsg (msg : String)
deriving DecidableEq, Repr

/-- The `QueueDemo` enqueue-button click handler: trims the raw input;
a falsy (empty) value gets a warning toast and the queue is never
touched; otherwise `QueueDemo.enqueue` calls `Queue.enqueue` and
reports success or the caught error. -/
def queueDemoEnqueueClick (q : Queue) (raw : String) : Queue × QueueFeedback :=
  let value := jsTrim raw
  if value = "" then
    (q, .warning "Vui lòng nhập giá trị!")
  else
    match q.enqueue value with
    | .ok q2 => (q2, .success ("Đã thêm: " ++ value))
    | .error _ =>
      (q, .errorMsg ("Queue overflow! Maximum size is " ++ toString q.maxSize))

/-! ## Helper lemmas -/

lemma Stack.push_ok_of_valid (s : Stack) (v : String)
    (hlt : s.items.length < s.maxSize) (hv : v ≠ "") :
    s.push (some v) = .ok { s with items := s.items ++ [v] } := by
  have h1 : ¬ (s.items.length ≥ s.maxSize) := by omega
  simp [Stack.push, h1, hv]

lemma pushSeq_ok (vs : List String) : ∀ s : Stack,
    s.items.length + vs.length ≤ s.maxSize → (∀ v ∈ vs, v ≠ "") →
    pushSeq s (vs.map some) = .ok { items := s.items ++ vs, maxSize := s.maxSize } := by
  induction vs with
  | nil => intro s _ _; simp [pushSeq]
  | cons v vs ih =>
    intro s hlen hvalid
    have hv : v ≠ "" := hvalid v (List.mem_cons_self v vs)
    have hlt : s.items.length < s.maxSize := by
      simp only [List.length_cons] at hlen; omega
    simp only [List.map_cons, pushSeq, Stack.push_ok_of_valid s v hlt hv]
    have := ih { s with items := s.items ++ [v] }
      (by simp only [List.length_append, List.length_cons, List.length_nil] at hlen ⊢; omega)
      (fun w hw => hvalid w (List.mem_cons_of_mem v hw))
    simpa [bind, Except.bind] using this

lemma popSeq_items (m : Nat) (l : List String) :
    popSeq l.length { items := l, maxSize := m } = l.reverse := by
  induction l using List.reverseRecOn with
  | nil => simp [popSeq]
  | append_singleton l v ih =>
    rw [List.length_append, List.length_singleton]
    simp [popSeq, Stack.pop, List.getLast?_concat, List.dropLast_concat, ih]

lemma enqueueSeq_ok (vs : List String) : ∀ q : Queue,
    q.items.length + vs.length ≤ q.maxSize →
    enqueueSeq q vs = .ok { items := q.items ++ vs, maxSize := q.maxSize } := by
  induction vs with
  | nil => intro q _; simp [enqueueSeq]
  | cons v vs ih =>
    intro q hlen
    have hlt : ¬ (q.items.length ≥ q.maxSize) := by
      simp only [List.length_cons] at hlen; omega
    simp only [enqueueSeq, Queue.enqueue, if_neg hlt]
    have := ih { q with items := q.items ++ [v] }
      (by simp only [List.length_append, List.length_cons, List.length_nil] at hlen ⊢; omega)
    simpa [bind, Except.bind] using this

lemma dequeueSeq_items (m : Nat) (l : List String) :
    dequeueSeq l.length { items := l, maxSize := m } = l := by
  induction l with
  | nil => simp [dequeueSeq]
  | cons v rest ih => simp [dequeueSeq, Queue.dequeue, ih]

/-! ## Claims -/

/-- C1 (LIFO law): for every sequence of valid pushes onto an empty
Stack that does not exceed its capacity, the pushes all succeed and the
successive `pop()` calls return the pushed values in exact reverse order
of insertion. -/
theorem stack_lifo_law (cap : Nat) (vs : List String)
    (hcap : vs.length ≤ cap) (hvalid : ∀ v ∈ vs, v ≠ "") :
    ∃ s : Stack,
      pushSeq { items := [], maxSize := cap } (vs.map some) = .ok s ∧
      popSeq s.size s = vs.reverse := by
  refine ⟨{ items := vs, maxSize := cap }, ?_, ?_⟩
  · simpa using pushSeq_ok vs { items := [], maxSize := cap } (by simpa) hvalid
  · exact popSeq_items cap vs

/-- Witness for C1: the spec's own scenario, capacity 3 with A, B, C. -/
theorem stack_lifo_law_witness :
    ∃ s : Stack,
      pushSeq { items := [], maxSize := 3 } (["A", "B", "C"].map some) = .ok s ∧
      popSeq s.size s = ["C", "B", "A"] := by
  simpa using stack_lifo_law 3 ["A", "B", "C"] (by decide) (by decide)

/-- C2 (FIFO law): for every sequence of enqueues into an empty Queue
that does not exceed its capacity, the enqueues all succeed and the
successive `dequeue()` calls return the values in exact insertion
order. -/
theorem queue_fifo_law (cap : Nat) (vs : List String) (hcap : vs.length ≤ cap) :
    ∃ q : Queue,
      enqueueSeq { items := [], maxSize := cap } vs = .ok q ∧
      dequeueSeq q.size q = vs := by
  refine ⟨{ items := vs, maxSize := cap }, ?_, ?_⟩
  · simpa using enqueueSeq_ok vs { items := [], maxSize := cap } (by simpa)
  · exact dequeueSeq_items cap vs

/-- Witness for C2: the spec's own scenario, capacity 3 with X, Y, Z. -/
theorem queue_fifo_law_witness :
    ∃ q : Queue,
      enqueueSeq { items := [], maxSize := 3 } ["X", "Y", "Z"] = .ok q ∧
      dequeueSeq q.size q = ["X", "Y", "Z"] :=
  queue_fifo_law 3 ["X", "Y", "Z"] (by decide)

lemma Stack.peek_eq_getLast? (s : Stack) : s.peek = s.items.getLast? := by
  unfold Stack.peek
  rw [List.getLast?_eq_get?]
  rcases Nat.eq_zero_or_pos s.items.length with h | h
  · have hnil : s.items = [] := List.length_eq_zero.mp h
    simp [hnil]
  · have hne : (s.items.length == 0) = false := by
      simpa using Nat.pos_iff_ne_zero.mp h
    rw [hne]
    simp

lemma Queue.rear_eq_getLast? (q : Queue) : q.rear = q.items.getLast? := by
  unfold Queue.rear
  rw [List.getLast?_eq_get?]
  rcases Nat.eq_zero_or_pos q.items.length with h | h
  · have hnil : q.items = [] := List.length_eq_zero.mp h
    simp [hnil]
  · have hne : (q.items.length == 0) = false := by
      simpa using Nat.pos_iff_ne_zero.mp h
    rw [hne]
    simp

lemma Queue.front_eq_head? (q : Queue) : q.front = q.items.head? := by
  cases hq : q.items with
  | nil => simp [Queue.front, hq]
  | cons a l => simp [Queue.front, hq]

lemma getLast?_drop_of_lt (l : List String) (k : Nat) (h : k < l.length) :
    (l.drop k).getLast? = l.getLast? := by
  have hne : l.drop k ≠ [] := by
    apply List.ne_nil_of_length_pos
    rw [List.length_drop]
    omega
  conv_rhs => rw [← List.take_append_drop k l]
  rw [List.getLast?_append_of_ne_nil _ hne]

/-- C3 (asymmetric empty-removal contract): on an empty Stack, `pop()`
throws `Underflow`; on an empty Queue, `dequeue()` does not throw and
returns the `null` sentinel with the queue unchanged. -/
theorem empty_removal_asymmetry (s : Stack) (q : Queue)
    (hs : s.isEmpty = true) (hq : q.isEmpty = true) :
    s.pop = .error .underflow ∧ q.dequeue = (none, q) := by
  have hsl : s.items = [] := by
    simpa [Stack.isEmpty, List.length_eq_zero] using hs
  have hql : q.items = [] := by
    simpa [Queue.isEmpty, List.length_eq_zero] using hq
  constructor
  · simp [Stack.pop, hsl]
  · simp [Queue.dequeue, hql]

/-- Witness for C3: the freshly constructed containers. -/
theorem empty_removal_asymmetry_witness :
    Stack.pop { items := [], maxSize := 10 } = .error .underflow ∧
    Queue.dequeue { items := [], maxSize := 50 } =
      (none, { items := [], maxSize := 50 }) :=
  empty_removal_asymmetry { items := [], maxSize := 10 }
    { items := [], maxSize := 50 } rfl rfl

/-- C4 (Stack push error contract): at capacity, `push` throws
`Overflow` (and, being a throw, yields no new state — the container is
untouched); below capacity an absent or empty value throws
`InvalidValue` without mutating; otherwise the value is appended at the
logical top. The overflow check precedes the validity check, as in the
source. -/
theorem stack_push_contract (s : Stack) (v : Option String) :
    (s.size = s.maxSize → s.push v = .error .overflow) ∧
    (s.size < s.maxSize → (v = none ∨ v = some "") →
      s.push v = .error .invalidValue) ∧
    (∀ str : String, s.size < s.maxSize → v = some str → str ≠ "" →
      s.push v = .ok { s with items := s.items ++ [str] }) := by
  refine ⟨?_, ?_, ?_⟩
  · intro h
    have hge : s.items.length ≥ s.maxSize := by
      unfold Stack.size at h; omega
    simp [Stack.push, hge]
  · intro h hv
    have hge : ¬ (s.items.length ≥ s.maxSize) := by
      unfold Stack.size at h; omega
    rcases hv with rfl | rfl <;> simp [Stack.push, hge]
  · intro str h heq hne
    subst heq
    exact Stack.push_ok_of_valid s str (by unfold Stack.size at h; omega) hne

/-- Witness for C4: a full one-slot stack overflows on push. -/
theorem stack_push_contract_witness :
    Stack.push { items := ["a"], maxSize := 1 } (some "b") =
      .error .overflow :=
  (stack_push_contract { items := ["a"], maxSize := 1 } (some "b")).1 rfl

lemma stackStep_inv (s : Stack) (op : StackOp) (h : stackInv s) :
    stackInv (stackStep s op) := by
  unfold stackInv at h ⊢
  cases op with
  | push v =>
    by_cases hge : s.items.length ≥ s.maxSize
    · simpa [stackStep, Stack.push, hge] using h
    · cases v with
      | none => simpa [stackStep, Stack.push, hge] using h
      | some str =>
        by_cases hstr : str = ""
        · simpa [stackStep, Stack.push, hge, hstr] using h
        · simp [stackStep, Stack.push, hge, hstr]
          omega
  | pop =>
    cases hl : s.items.getLast? with
    | none => simpa [stackStep, Stack.pop, hl] using h
    | some v =>
      simp [stackStep, Stack.pop, hl, List.length_dropLast]
      omega
  | peek => exact h
  | clear => simp [stackStep, Stack.clear]
  | setMaxSize n =>
    by_cases hn : n < 1
    · simpa [stackStep, Stack.setMaxSize, hn] using h
    · by_cases hgt : s.items.length > n.toNat
      · simp [stackStep, Stack.setMaxSize, hn, hgt, List.length_drop]
        omega
      · simp [stackStep, Stack.setMaxSize, hn, hgt]
        omega

lemma queueStep_inv (q : Queue) (op : QueueOp) (h : queueInv q) :
    queueInv (queueStep q op) := by
  unfold queueInv at h ⊢
  cases op with
  | enqueue v =>
    by_cases hge : q.items.length ≥ q.maxSize
    · simpa [queueStep, Queue.enqueue, hge] using h
    · simp [queueStep, Queue.enqueue, hge]
      omega
  | dequeue =>
    cases hq : q.items with
    | nil => simp [queueStep, Queue.dequeue, hq]
    | cons a l =>
      simp only [queueStep, Queue.dequeue, hq] at h ⊢
      simp only [List.length_cons] at h
      exact Nat.le_of_succ_le h
  | front => exact h
  | rear => exact h
  | clear => simp [queueStep, Queue.clear]

lemma stackRun_inv (s : Stack) (h : stackInv s) (ops : List StackOp) :
    stackInv (stackRun s ops) := by
  induction ops generalizing s with
  | nil => exact h
  | cons op ops ih => exact ih (stackStep s op) (stackStep_inv s op h)

lemma queueRun_inv (q : Queue) (h : queueInv q) (ops : List QueueOp) :
    queueInv (queueRun q ops) := by
  induction ops generalizing q with
  | nil => exact h
  | cons op ops ih => exact ih (queueStep q op) (queueStep_inv q op h)

/-- C5 (capacity invariant): `0 ≤ len(items) ≤ capacity` (the lower
bound is inherent to `Nat`) is preserved by every public operation of
both containers and therefore holds in every state reachable from the
freshly constructed containers. -/
theorem capacity_invariant :
    (∀ (s : Stack) (op : StackOp), stackInv s → stackInv (stackStep s op)) ∧
    (∀ (q : Queue) (op : QueueOp), queueInv q → queueInv (queueStep q op)) ∧
    (∀ ops : List StackOp, stackInv (stackRun Stack.new ops)) ∧
    (∀ ops : List QueueOp, queueInv (queueRun Queue.new ops)) :=
  ⟨stackStep_inv, queueStep_inv,
    stackRun_inv Stack.new (by simp [stackInv, Stack.new]),
    queueRun_inv Queue.new (by simp [queueInv, Queue.new])⟩

/-- Witness for C5: one preservation step on a concrete stack. -/
theorem capacity_invariant_witness :
    stackInv (stackStep { items := ["a"], maxSize := 2 }
      (StackOp.push (some "b"))) :=
  capacity_invariant.1 { items := ["a"], maxSize := 2 }
    (StackOp.push (some "b")) (by decide)

/-- C6 (setCapacity contract): a requested capacity below 1 throws
`InvalidCapacity` (no state change); a request below current occupancy
truncates by discarding the oldest (bottom) elements — the retained
items are exactly the length-`capacity` suffix of the old contents —
and the post-truncation top equals the pre-truncation top (the top is
always within the retained range because the newest elements are
kept). -/
theorem setCapacity_contract (s : Stack) (n : Int) :
    (n < 1 → s.setMaxSize n = .error .invalidCapacity) ∧
    (1 ≤ n → n.toNat < s.items.length →
      ∃ t : Stack, s.setMaxSize n = .ok t ∧
        t.maxSize = n.toNat ∧
        t.items.length = n.toNat ∧
        s.items = s.items.take (s.items.length - n.toNat) ++ t.items ∧
        t.peek = s.peek) := by
  constructor
  · intro h
    simp [Stack.setMaxSize, h]
  · intro h1 h2
    have hn : ¬ (n < 1) := by omega
    refine ⟨{ items := s.items.drop (s.items.length - n.toNat),
              maxSize := n.toNat }, ?_, rfl, ?_, ?_, ?_⟩
    · simp [Stack.setMaxSize, hn, h2]
    · simp only [List.length_drop]
      omega
    · exact (List.take_append_drop _ s.items).symm
    · rw [Stack.peek_eq_getLast?, Stack.peek_eq_getLast?]
      exact getLast?_drop_of_lt s.items (s.items.length - n.toNat) (by omega)

/-- Witness for C6: shrinking a three-element stack to capacity 2 keeps
the two newest elements and the same top. -/
theorem setCapacity_contract_witness :
    ∃ t : Stack, Stack.setMaxSize { items := ["a", "b", "c"], maxSize := 10 } 2
        = .ok t ∧
      t.maxSize = (2 : Int).toNat ∧
      t.items.length = (2 : Int).toNat ∧
      (["a", "b", "c"] : List String) =
        (["a", "b", "c"] : List String).take
          ((["a", "b", "c"] : List String).length - (2 : Int).toNat) ++ t.items ∧
      t.peek = Stack.peek { items := ["a", "b", "c"], maxSize := 10 } :=
  (setCapacity_contract { items := ["a", "b", "c"], maxSize := 10 } 2).2
    (by decide) (by decide)

/-- C7 (clear contract): `clear()` on either container always succeeds
(it is a total function), resets to the empty state, is idempotent, and
afterwards `size()` reports 0 and `isEmpty()` reports true. -/
theorem clear_contract (s : Stack) (q : Queue) :
    (s.clear).size = 0 ∧ (s.clear).isEmpty = true ∧
    (s.clear).clear = s.clear ∧ (s.clear).peek = none ∧
    (q.clear).size = 0 ∧ (q.clear).isEmpty = true ∧
    (q.clear).clear = q.clear :=
  ⟨rfl, rfl, rfl, rfl, rfl, rfl, rfl⟩

/-- C8 (non-destructive peeks): `peek`, `front` and `rear` are total
read-only functions (they return no new state, so they cannot mutate
and never throw); each returns exactly the top / front / rear element
of the contents, and the `null` sentinel when empty. `peek` agrees with
what `pop` would remove. -/
theorem peeks_contract (s : Stack) (q : Queue) :
    s.peek = s.items.getLast? ∧
    (∀ (v : String) (rest : Stack), s.pop = .ok (v, rest) → s.peek = some v) ∧
    (s.pop = .error .underflow → s.peek = none) ∧
    q.front = q.items.head? ∧
    q.rear = q.items.getLast? ∧
    (q.isEmpty = true → q.front = none ∧ q.rear = none) := by
  refine ⟨Stack.peek_eq_getLast? s, ?_, ?_, Queue.front_eq_head? q,
    Queue.rear_eq_getLast? q, ?_⟩
  · intro v rest hok
    rw [Stack.peek_eq_getLast?]
    unfold Stack.pop at hok
    cases hl : s.items.getLast? with
    | none => rw [hl] at hok; simp at hok
    | some w => rw [hl] at hok; simp at hok; simp [hok.1]
  · intro herr
    rw [Stack.peek_eq_getLast?]
    unfold Stack.pop at herr
    cases hl : s.items.getLast? with
    | none => rfl
    | some w => rw [hl] at herr; simp at herr
  · intro hq
    have hql : q.items = [] := by
      simpa [Queue.isEmpty, List.length_eq_zero] using hq
    simp [Queue.front_eq_head? q, Queue.rear_eq_getLast? q, hql]

/-- Witness for C8: the empty queue's peeks both return the sentinel. -/
theorem peeks_contract_witness :
    Queue.front { items := [], maxSize := 50 } = none ∧
    Queue.rear { items := [], maxSize := 50 } = none :=
  (peeks_contract { items := ["a"], maxSize := 10 }
    { items := [], maxSize := 50 }).2.2.2.2.2 rfl

/-- C9 (controller input validation): when the trimmed input value is
blank, `StackDemo.push` emits the validation-error feedback and returns
before calling `Stack.push`, and the `QueueDemo` enqueue handler emits
its warning toast and never calls `Queue.enqueue`; both containers are
returned exactly as they were. -/
theorem controller_blank_input (st : Stack) (q : Queue) (raw : String)
    (hblank : jsTrim raw = "") :
    stackDemoPush st raw =
      (st, .validationError "Please enter a value") ∧
    queueDemoEnqueueClick q raw =
      (q, .warning "Vui lòng nhập giá trị!") := by
  constructor <;> simp [stackDemoPush, queueDemoEnqueueClick, hblank]

/-- Witness for C9: whitespace-only input against fresh containers. -/
theorem controller_blank_input_witness :
    stackDemoPush { items := [], maxSize := 10 } "   " =
      ({ items := [], maxSize := 10 },
        StackFeedback.validationError "Please enter a value") ∧
    queueDemoEnqueueClick { items := [], maxSize := 50 } "   " =
      ({ items := [], maxSize := 50 },
        QueueFeedback.warning "Vui lòng nhập giá trị!") :=
  controller_blank_input { items := [], maxSize := 10 }
    { items := [], maxSize := 50 } "   " (by decide)

/-- C10 (implicit controller length limit): a non-blank trimmed input
longer than 15 characters is rejected by `StackDemo.push` with a
validation notice before `Stack.push` is ever called, the stack being
returned untouched — while the `Stack` container itself imposes no
length limit: it accepts any non-empty value when below capacity. -/
theorem controller_length_limit (st : Stack) (raw : String)
    (hne : jsTrim raw ≠ "") (hlong : (jsTrim raw).length > 15) :
    stackDemoPush st raw =
      (st, .validationError "Value too long (max 15 characters)") ∧
    (∀ v : String, v ≠ "" → st.items.length < st.maxSize →
      st.push (some v) = .ok { st with items := st.items ++ [v] }) := by
  constructor
  · simp [stackDemoPush, hne, hlong]
  · intro v hv hlt
    exact Stack.push_ok_of_valid st v hlt hv

/-- Witness for C10: a 17-character input is rejected by the controller
on a fresh (far from full) stack. -/
theorem controller_length_limit_witness :
    stackDemoPush { items := [], maxSize := 10 } "abcdefghijklmnopq" =
      ({ items := [], maxSize := 10 },
        StackFeedback.validationError "Value too long (max 15 characters)") :=
  (controller_length_limit { items := [], maxSize := 10 } "abcdefghijklmnopq"
    (by decide) (by decide)).1
